import Mathlib

/-!
Verification of the trader repository core: a shallow embedding of the
portfolio ledger (src/src/models/portfolio.py, position.py, trade.py),
the rotation engine (src/src/agent/rotation_engine.py), the position
sizer (src/src/agent/position_sizer.py) and the RSI indicator
(src/src/utils/indicators.py), with theorems about each.

Python floats are modelled as rationals; Python dicts as association
lists with unique keys (insertion ordered); Python None as Option.
-/

namespace Trader

/-- Python truthiness on an optional float: the expression x or d yields d
when x is None or 0.0, and the value of x otherwise.  Models the source
expression pos.current_score or 0.0. -/
def pyOr (x : Option ℚ) (d : ℚ) : ℚ :=
  match x with
  | none => d
  | some v => if v = 0 then d else v

/-- Python int(q) applied to a float quotient: truncation toward zero. -/
def pyInt (q : ℚ) : Int :=
  if 0 ≤ q then ⌊q⌋ else ⌈q⌉

/-- First-match lookup in an association list; models Python dict
indexing and membership tests (dict keys are unique, so the first match
is the only match). -/
def lookupA {β : Type} (t : String) : List (String × β) → Option β
  | [] => none
  | e :: rest => if e.1 = t then some e.2 else lookupA t rest

/-- Removal of a key from an association list; models del dict[key]. -/
def eraseA {β : Type} (t : String) : List (String × β) → List (String × β)
  | [] => []
  | e :: rest => if e.1 = t then eraseA t rest else e :: eraseA t rest

/-- In-place mutation of the value stored under a key; models mutating
dict[key] (entries with other keys are untouched, insertion order kept). -/
def updateA {β : Type} (t : String) (f : β → β) : List (String × β) → List (String × β)
  | [] => []
  | e :: rest => if e.1 = t then (e.1, f e.2) :: updateA t f rest else e :: updateA t f rest

/-- src/src/models/position.py, class Position.  The entry_date field
(wall-clock only, never read by the ledger logic) is omitted. -/
structure Position where
  ticker : String
  shares : Int
  entry_price : ℚ
  entry_score : ℚ
  current_price : Option ℚ := none
  current_score : Option ℚ := none
deriving DecidableEq, Repr

/-- Position.entry_value. -/
def Position.entry_value (pos : Position) : ℚ :=
  pos.shares * pos.entry_price

/-- Position.current_value: entry value while current_price is unset. -/
def Position.current_value (pos : Position) : ℚ :=
  match pos.current_price with
  | none => pos.entry_value
  | some p => pos.shares * p

/-- Position.update_price(price, score=None): sets current_price, and
current_score only when a score is supplied. -/
def Position.update_price (pos : Position) (price : ℚ) (score : Option ℚ := none) : Position :=
  let pos := { pos with current_price := some price }
  match score with
  | none => pos
  | some s => { pos with current_score := some s }

/-- src/src/models/trade.py, TradeType (ROTATION is declared but never
constructed by the ledger). -/
inductive TradeType where
  | buy
  | sell
  | rotation
deriving DecidableEq, Repr

/-- src/src/models/trade.py, class Trade.  The timestamp field is
omitted (wall clock); commission always defaults to 0 in this codebase. -/
structure Trade where
  ticker : String
  trade_type : TradeType
  shares : Int
  price : ℚ
  score : ℚ := 0
  reason : String := ""
  commission : ℚ := 0
deriving DecidableEq, Repr

/-- src/src/models/portfolio.py, class Portfolio (created_at omitted). -/
structure Portfolio where
  initial_capital : ℚ
  cash : ℚ
  positions : List (String × Position)
  trades : List Trade
  peak_value : ℚ
deriving DecidableEq, Repr

/-- Portfolio.__init__(initial_capital). -/
def Portfolio.init (initial_capital : ℚ) : Portfolio :=
  { initial_capital := initial_capital
    cash := initial_capital
    positions := []
    trades := []
    peak_value := initial_capital }

/-- Portfolio.portfolio_value: cash plus current value of all holdings. -/
def Portfolio.portfolio_value (p : Portfolio) : ℚ :=
  p.cash + (p.positions.map (fun e => e.2.current_value)).sum

/-- The peak-update block repeated at the end of every mutating method:
if self.portfolio_value > self.peak_value: self.peak_value = self.portfolio_value. -/
def Portfolio.updatePeak (p : Portfolio) : Portfolio :=
  if p.peak_value < p.portfolio_value then { p with peak_value := p.portfolio_value } else p

/-- Portfolio.add_position: declines (no mutation) when cost exceeds
cash; otherwise tops up an existing position (overwriting current
price/score) or creates a fresh one, debits cash, appends a BUY trade
and updates the peak. -/
def Portfolio.add_position (p : Portfolio) (ticker : String) (shares : Int)
    (price score : ℚ) (reason : String := "") : Bool × Portfolio :=
  let cost : ℚ := shares * price
  if p.cash < cost then (false, p)
  else
    let positions :=
      match lookupA ticker p.positions with
      | some _ =>
          updateA ticker (fun pos =>
            { pos with
              shares := pos.shares + shares
              current_price := some price
              current_score := some score }) p.positions
      | none =>
          p.positions ++ [(ticker,
            { ticker := ticker
              shares := shares
              entry_price := price
              entry_score := score
              current_price := some price
              current_score := some score })]
    let trade : Trade :=
      { ticker := ticker
        trade_type := TradeType.buy
        shares := shares
        price := price
        score := score
        reason := reason }
    let p := { p with
      positions := positions
      cash := p.cash - cost
      trades := p.trades ++ [trade] }
    (true, p.updatePeak)

/-- Portfolio.remove_position: declines when the ticker is not held;
otherwise appends a SELL trade (score is current_score or 0.0), credits
the proceeds, deletes the position and updates the peak. -/
def Portfolio.remove_position (p : Portfolio) (ticker : String) (price : ℚ)
    (reason : String := "") : (Bool × ℚ) × Portfolio :=
  match lookupA ticker p.positions with
  | none => ((false, 0), p)
  | some pos =>
    let proceeds : ℚ := pos.shares * price
    let trade : Trade :=
      { ticker := ticker
        trade_type := TradeType.sell
        shares := pos.shares
        price := price
        score := pyOr pos.current_score 0
        reason := reason }
    let p := { p with
      trades := p.trades ++ [trade]
      cash := p.cash + proceeds
      positions := eraseA ticker p.positions }
    ((true, proceeds), p.updatePeak)

/-- Portfolio.rotate_position: declines when the sell ticker is not held
or the derived share count is zero; otherwise closes the sell position
and opens the buy position with the derived share count.  Python
computes int(proceeds / buy_price), raising ZeroDivisionError when
buy_price is 0.0; in the rational model the quotient is then 0 and the
call declines, so every theorem below that reaches the division carries
a buy_price positivity hypothesis under which the two agree. -/
def Portfolio.rotate_position (p : Portfolio) (sell_ticker buy_ticker : String)
    (sell_price buy_price new_score : ℚ) (reason : String := "") : Bool × Portfolio :=
  match lookupA sell_ticker p.positions with
  | none => (false, p)
  | some pos =>
    let proceeds : ℚ := pos.shares * sell_price
    let shares_to_buy : Int := pyInt (proceeds / buy_price)
    if shares_to_buy = 0 then (false, p)
    else
      let r1 := p.remove_position sell_ticker sell_price reason
      if r1.1.1 = false then (false, r1.2)
      else r1.2.add_position buy_ticker shares_to_buy buy_price new_score reason

/-- Portfolio.update_prices: for each ticker in the dict that is held,
mutate that position via Position.update_price (score untouched), then
update the peak. -/
def Portfolio.update_prices (p : Portfolio) (price_dict : List (String × ℚ)) : Portfolio :=
  let p := { p with
    positions := price_dict.foldl
      (fun (acc : List (String × Position)) (e : String × ℚ) =>
        match lookupA e.1 acc with
        | some _ => updateA e.1 (fun pos => pos.update_price e.2) acc
        | none => acc) p.positions }
  p.updatePeak

/-- dict assignment self.last_rotations[sell_ticker] = buy_ticker:
overwrite when present, append otherwise. -/
def setA {β : Type} (t : String) (v : β) (l : List (String × β)) : List (String × β) :=
  match lookupA t l with
  | some _ => updateA t (fun _ => v) l
  | none => l ++ [(t, v)]

namespace RotationEngine

/-- RotationEngine.__init__ default rotation_threshold = 0.02. -/
def default_threshold : ℚ := 1/50

/-- Candidate triples are ordered descending by the third component. -/
def gainGE (a b : String × String × ℚ) : Prop := b.2.2 ≤ a.2.2

instance : DecidableRel gainGE :=
  fun a b => inferInstanceAs (Decidable (b.2.2 ≤ a.2.2))

instance : IsTotal (String × String × ℚ) gainGE :=
  ⟨fun a b => le_total b.2.2 a.2.2⟩

instance : IsTrans (String × String × ℚ) gainGE :=
  ⟨fun _ _ _ h1 h2 => le_trans h2 h1⟩

/-- RotationEngine.evaluate_rotations: for every held position and every
watchlist candidate not already held whose score exceeds the holding
score (current_score or 0.0) by more than the threshold, emit
(holding, candidate, gain); sort descending by gain.  Python uses a
stable sort with reverse=True, modelled by stable insertion sort on the
descending order. -/
def evaluate_rotations (rotation_threshold : ℚ) (portfolio : Portfolio)
    (watchlist_scores : List (String × ℚ)) : List (String × String × ℚ) :=
  let rotation_candidates := portfolio.positions.flatMap
    (fun (h : String × Position) =>
      let holding_score := pyOr h.2.current_score 0
      watchlist_scores.filterMap (fun (c : String × ℚ) =>
        if (lookupA c.1 portfolio.positions).isSome then none
        else
          let rotation_gain := c.2 - holding_score
          if rotation_threshold < rotation_gain then some (h.1, c.1, rotation_gain)
          else none))
  List.insertionSort gainGE rotation_candidates

/-- RotationEngine.execute_rotation: missing price data, then
non-positive prices, then delegation to Portfolio.rotate_position, in
that order; on success the rotation is recorded in last_rotations.
Returns ((success, error message), portfolio, last_rotations). -/
def execute_rotation (last_rotations : List (String × String)) (portfolio : Portfolio)
    (sell_ticker buy_ticker : String) (prices : List (String × ℚ)) (new_score : ℚ)
    (reason : String := "") :
    (Bool × Option String) × Portfolio × List (String × String) :=
  match lookupA sell_ticker prices, lookupA buy_ticker prices with
  | none, _ => ((false, some "Price data missing"), portfolio, last_rotations)
  | _, none => ((false, some "Price data missing"), portfolio, last_rotations)
  | some sell_price, some buy_price =>
    if sell_price ≤ 0 ∨ buy_price ≤ 0 then
      ((false, some "Invalid prices"), portfolio, last_rotations)
    else
      let r := portfolio.rotate_position sell_ticker buy_ticker sell_price buy_price
        new_score reason
      if r.1 = false then
        ((false, some "Rotation failed: insufficient proceeds or cash"), r.2, last_rotations)
      else
        ((true, none), r.2, setA sell_ticker buy_ticker last_rotations)

end RotationEngine

namespace PositionSizer

/-- PositionSizer.__init__ constants. -/
def base_allocation : ℚ := 1/2

def confidence_scaling : ℚ := 2/5

def max_position_pct : ℚ := 9/10

def min_position_pct : ℚ := 1/10

/-- PositionSizer.calculate_size: raises ValueError (modelled as none)
unless 0 <= score <= 1; otherwise base + score * scaling, capped above
then floored below. -/
def calculate_size (score : ℚ) : Option ℚ :=
  if ¬ (0 ≤ score ∧ score ≤ 1) then none
  else
    let position_size := base_allocation + score * confidence_scaling
    let position_size := min position_size max_position_pct
    let position_size := max position_size min_position_pct
    some position_size

end PositionSizer

/-- prices.diff() after the first element: successive differences. -/
def diffAux : ℚ → List ℚ → List (Option ℚ)
  | _, [] => []
  | prev, y :: rest => some (y - prev) :: diffAux y rest

/-- prices.diff(): NaN (none) at index 0, then successive differences. -/
def diffList : List ℚ → List (Option ℚ)
  | [] => []
  | x :: rest => none :: diffAux x rest

/-- delta.where(delta > 0, 0) elementwise: NaN compares False, so the
leading NaN slot becomes 0 (this is why the gain series has no NaN). -/
def gainOf (d : Option ℚ) : ℚ :=
  match d with
  | none => 0
  | some x => if 0 < x then x else 0

/-- The elementwise value of -delta.where(delta < 0, 0). -/
def lossOf (d : Option ℚ) : ℚ :=
  match d with
  | none => 0
  | some x => if x < 0 then -x else 0

/-- One entry of s.rolling(window=n).mean() over a series with no NaN:
undefined before n observations, then the mean of the trailing n. -/
def rollingMeanAux (n : Nat) (l : List ℚ) (i : Nat) : Option ℚ :=
  if i + 1 < n then none
  else some (((l.drop (i + 1 - n)).take n).sum / n)

/-- s.rolling(window=n).mean() over a series with no NaN entries. -/
def rollingMean (n : Nat) (l : List ℚ) : List (Option ℚ) :=
  (List.range l.length).map (rollingMeanAux n l)

/-- rs = avg_gain / avg_loss and rsi = 100 - 100 / (1 + rs) under float
semantics: avg_loss = 0 gives rs = +infinity and hence rsi = 100 when
avg_gain > 0, and rs = NaN (undefined rsi) when avg_gain = 0. -/
def rsiCombine (g l : Option ℚ) : Option ℚ :=
  match g, l with
  | some g, some l =>
    if l = 0 then (if g = 0 then none else some 100)
    else some (100 - 100 / (1 + g / l))
  | _, _ => none

/-- src/src/utils/indicators.py RSI(prices, period=14): all-undefined
when the series is shorter than period+1; otherwise rolling average
gain over rolling average loss.  pandas rolling(window=period) requires
period >= 1, which the theorems below assume. -/
def RSI (prices : List ℚ) (period : Nat := 14) : List (Option ℚ) :=
  if prices.length < period + 1 then prices.map (fun _ => none)
  else
    let delta := diffList prices
    let gain := delta.map gainOf
    let loss := delta.map lossOf
    let avg_gain := rollingMean period gain
    let avg_loss := rollingMean period loss
    List.zipWith rsiCombine avg_gain avg_loss

/-- The four Portfolio mutators, for reasoning about call sequences. -/
inductive Op where
  | add (ticker : String) (shares : Int) (price score : ℚ) (reason : String)
  | remove (ticker : String) (price : ℚ) (reason : String)
  | rotate (sell_ticker buy_ticker : String) (sell_price buy_price new_score : ℚ)
      (reason : String)
  | update (price_dict : List (String × ℚ))

/-- Apply one mutator, discarding its returned status. -/
def applyOp (p : Portfolio) : Op → Portfolio
  | .add t s pr sc r => (p.add_position t s pr sc r).2
  | .remove t pr r => ((p.remove_position t pr r)).2
  | .rotate st bt sp bp ns r => (p.rotate_position st bt sp bp ns r).2
  | .update d => p.update_prices d

/-- Apply a sequence of mutators in order. -/
def applyOps (p : Portfolio) (ops : List Op) : Portfolio :=
  ops.foldl applyOp p

/-- The side condition of the cash claim: every buy or sell leg uses at
least one share and a positive price. -/
def Op.Valid : Op → Prop
  | .add _ s pr _ _ => 1 ≤ s ∧ 0 < pr
  | .remove _ pr _ => 0 < pr
  | .rotate _ _ sp bp _ _ => 0 < sp ∧ 0 < bp
  | .update _ => True

instance : DecidablePred Op.Valid := by
  intro op
  cases op <;> simp only [Op.Valid] <;> infer_instance

/-! ### Association-list lemmas -/

theorem lookupA_eq_none_iff {β : Type} (t : String) (l : List (String × β)) :
    lookupA t l = none ↔ ∀ e ∈ l, e.1 ≠ t := by
  induction l with
  | nil => simp [lookupA]
  | cons e rest ih =>
    by_cases h : e.1 = t <;> simp [lookupA, h, ih]

theorem lookupA_some_mem {β : Type} {t : String} {v : β} {l : List (String × β)}
    (h : lookupA t l = some v) : (t, v) ∈ l := by
  induction l with
  | nil => simp [lookupA] at h
  | cons e rest ih =>
    by_cases he : e.1 = t
    · simp [lookupA, he] at h
      have hev : (t, v) = e := by
        rw [← he, ← h]
      rw [hev]
      exact List.mem_cons_self _ _
    · simp [lookupA, he] at h
      exact List.mem_cons_of_mem _ (ih h)

theorem mem_lookupA_nodup {β : Type} {t : String} {v : β} {l : List (String × β)}
    (hnd : (l.map Prod.fst).Nodup) (h : (t, v) ∈ l) : lookupA t l = some v := by
  induction l with
  | nil => simp at h
  | cons e rest ih =>
    simp only [List.map_cons, List.nodup_cons] at hnd
    rcases List.mem_cons.1 h with h | h
    · rw [← h]
      simp [lookupA]
    · have hne : e.1 ≠ t := by
        intro hte
        exact hnd.1 (by simpa [hte] using List.mem_map_of_mem Prod.fst h)
      simp [lookupA, hne, ih hnd.2 h]

theorem lookupA_eraseA_self {β : Type} (t : String) (l : List (String × β)) :
    lookupA t (eraseA t l) = none := by
  induction l with
  | nil => simp [eraseA, lookupA]
  | cons e rest ih =>
    by_cases h : e.1 = t <;> simp [eraseA, lookupA, h, ih]

theorem lookupA_eraseA_ne {β : Type} {s t : String} (h : s ≠ t) (l : List (String × β)) :
    lookupA t (eraseA s l) = lookupA t l := by
  induction l with
  | nil => simp [eraseA]
  | cons e rest ih =>
    by_cases he : e.1 = s
    · have het : e.1 ≠ t := by rw [he]; exact h
      simp [eraseA, lookupA, he, het, ih, h]
    · by_cases ht : e.1 = t <;>
        simp [eraseA, lookupA, he, ht, ih, h, Ne.symm h]

theorem mem_eraseA {β : Type} {e : String × β} {t : String} {l : List (String × β)}
    (h : e ∈ eraseA t l) : e ∈ l := by
  induction l with
  | nil => simp [eraseA] at h
  | cons x rest ih =>
    by_cases hx : x.1 = t
    · simp only [eraseA, if_pos hx] at h
      exact List.mem_cons_of_mem _ (ih h)
    · simp only [eraseA, if_neg hx] at h
      rcases List.mem_cons.1 h with h | h
      · exact h ▸ List.mem_cons_self _ _
      · exact List.mem_cons_of_mem _ (ih h)

theorem lookupA_append {β : Type} (t : String) (l1 l2 : List (String × β)) :
    lookupA t (l1 ++ l2) = (lookupA t l1).or (lookupA t l2) := by
  induction l1 with
  | nil => simp [lookupA]
  | cons e rest ih =>
    by_cases h : e.1 = t <;> simp [lookupA, h, ih]

theorem updateA_eq_map {β : Type} (t : String) (f : β → β) (l : List (String × β)) :
    updateA t f l = l.map (fun e => if e.1 = t then (e.1, f e.2) else e) := by
  induction l with
  | nil => simp [updateA]
  | cons e rest ih =>
    by_cases h : e.1 = t <;> simp [updateA, h, ih]

theorem lookupA_updateA_self {β : Type} (t : String) (f : β → β) (l : List (String × β)) :
    lookupA t (updateA t f l) = (lookupA t l).map f := by
  induction l with
  | nil => simp [updateA, lookupA]
  | cons e rest ih =>
    by_cases h : e.1 = t <;> simp [updateA, lookupA, h, ih]

theorem mem_updateA {β : Type} {e : String × β} {t : String} {f : β → β}
    {l : List (String × β)} (h : e ∈ updateA t f l) :
    e ∈ l ∨ ∃ v, (t, v) ∈ l ∧ e = (t, f v) := by
  rw [updateA_eq_map] at h
  rcases List.mem_map.1 h with ⟨x, hx, hxe⟩
  by_cases hxt : x.1 = t
  · right
    refine ⟨x.2, ?_, ?_⟩
    · rwa [← hxt, Prod.mk.eta]
    · simp [hxt] at hxe
      exact hxe.symm
  · left
    simp [hxt] at hxe
    rwa [← hxe]

/-! ### updatePeak lemmas -/

@[simp] theorem updatePeak_cash (p : Portfolio) : p.updatePeak.cash = p.cash := by
  unfold Portfolio.updatePeak
  split <;> rfl

@[simp] theorem updatePeak_positions (p : Portfolio) :
    p.updatePeak.positions = p.positions := by
  unfold Portfolio.updatePeak
  split <;> rfl

@[simp] theorem updatePeak_trades (p : Portfolio) : p.updatePeak.trades = p.trades := by
  unfold Portfolio.updatePeak
  split <;> rfl

@[simp] theorem updatePeak_initial_capital (p : Portfolio) :
    p.updatePeak.initial_capital = p.initial_capital := by
  unfold Portfolio.updatePeak
  split <;> rfl

theorem portfolio_value_peak_irrelevant (p : Portfolio) (x : ℚ) :
    Portfolio.portfolio_value { p with peak_value := x } = p.portfolio_value := rfl

@[simp] theorem updatePeak_portfolio_value (p : Portfolio) :
    p.updatePeak.portfolio_value = p.portfolio_value := by
  unfold Portfolio.updatePeak
  split <;> rfl

theorem le_updatePeak_peak (p : Portfolio) : p.peak_value ≤ p.updatePeak.peak_value := by
  unfold Portfolio.updatePeak
  split
  · exact le_of_lt (by assumption)
  · exact le_refl _

theorem pv_le_updatePeak_peak (p : Portfolio) :
    p.updatePeak.portfolio_value ≤ p.updatePeak.peak_value := by
  unfold Portfolio.updatePeak
  split
  · exact le_refl _
  · exact le_of_not_lt (by assumption)

theorem peak_le_updatePeak_of_eq (p q : Portfolio) (h : p.peak_value = q.peak_value) :
    p.peak_value ≤ q.updatePeak.peak_value :=
  h ▸ le_updatePeak_peak q

/-! ### Branch equations for the Portfolio mutators -/

/-- The BUY trade recorded by add_position. -/
def buyTrade (t : String) (s : Int) (pr sc : ℚ) (r : String) : Trade :=
  { ticker := t, trade_type := TradeType.buy, shares := s, price := pr, score := sc, reason := r }

/-- The SELL trade recorded by remove_position. -/
def sellTrade (t : String) (s : Int) (pr sc : ℚ) (r : String) : Trade :=
  { ticker := t, trade_type := TradeType.sell, shares := s, price := pr, score := sc, reason := r }

/-- The fresh Position created by add_position for a new ticker. -/
def freshPosition (t : String) (s : Int) (pr sc : ℚ) : Position :=
  { ticker := t, shares := s, entry_price := pr, entry_score := sc, current_price := some pr, current_score := some sc }

theorem add_position_fail (p : Portfolio) (t : String) (s : Int) (pr sc : ℚ)
    (r : String) (hc : p.cash < (s : ℚ) * pr) :
    p.add_position t s pr sc r = (false, p) := by
  simp [Portfolio.add_position, hc]

theorem add_position_new (p : Portfolio) (t : String) (s : Int) (pr sc : ℚ)
    (r : String) (hc : ¬ p.cash < (s : ℚ) * pr) (hl : lookupA t p.positions = none) :
    p.add_position t s pr sc r =
      (true, Portfolio.updatePeak
        { p with
          positions := p.positions ++ [(t, freshPosition t s pr sc)]
          cash := p.cash - (s : ℚ) * pr
          trades := p.trades ++ [buyTrade t s pr sc r] }) := by
  simp [Portfolio.add_position, hc, hl, buyTrade, freshPosition]

theorem add_position_exist (p : Portfolio) (t : String) (s : Int) (pr sc : ℚ)
    (r : String) (pos : Position) (hc : ¬ p.cash < (s : ℚ) * pr)
    (hl : lookupA t p.positions = some pos) :
    p.add_position t s pr sc r =
      (true, Portfolio.updatePeak
        { p with
          positions := updateA t (fun pos =>
            { pos with shares := pos.shares + s, current_price := some pr, current_score := some sc }) p.positions
          cash := p.cash - (s : ℚ) * pr
          trades := p.trades ++ [buyTrade t s pr sc r] }) := by
  simp [Portfolio.add_position, hc, hl, buyTrade]

theorem remove_position_notfound (p : Portfolio) (t : String) (price : ℚ)
    (r : String) (hl : lookupA t p.positions = none) :
    p.remove_position t price r = ((false, 0), p) := by
  simp [Portfolio.remove_position, hl]

theorem remove_position_found (p : Portfolio) (t : String) (price : ℚ)
    (r : String) (pos : Position) (hl : lookupA t p.positions = some pos) :
    p.remove_position t price r =
      ((true, (pos.shares : ℚ) * price), Portfolio.updatePeak
        { p with
          trades := p.trades ++ [sellTrade t pos.shares price (pyOr pos.current_score 0) r]
          cash := p.cash + (pos.shares : ℚ) * price
          positions := eraseA t p.positions }) := by
  simp [Portfolio.remove_position, hl, sellTrade]

/-! ### C4: add_position failure condition and success effects -/

/-- C4: AddPosition returns false exactly when shares times price
exceeds cash; in that case the portfolio is unchanged; on success cash
decreases by exactly shares times price and exactly one BUY trade is
appended to the history. -/
theorem add_position_spec (p : Portfolio) (t : String) (s : Int) (pr sc : ℚ)
    (r : String) (b : Bool) (q : Portfolio)
    (h : p.add_position t s pr sc r = (b, q)) :
    (b = false ↔ p.cash < (s : ℚ) * pr) ∧
    (b = false → q = p) ∧
    (b = true → q.cash = p.cash - (s : ℚ) * pr ∧
      q.trades = p.trades ++ [buyTrade t s pr sc r]) := by
  by_cases hc : p.cash < (s : ℚ) * pr
  · rw [add_position_fail p t s pr sc r hc] at h
    obtain ⟨hb, hq⟩ := Prod.mk.injEq .. ▸ h
    refine ⟨by simp [← hb, hc], fun _ => hq.symm, fun hb1 => ?_⟩
    rw [← hb] at hb1
    exact absurd hb1 (by simp)
  · cases hl : lookupA t p.positions with
    | none =>
      rw [add_position_new p t s pr sc r hc hl] at h
      obtain ⟨hb, hq⟩ := Prod.mk.injEq .. ▸ h
      refine ⟨by simp [← hb, hc], fun hb0 => ?_, fun _ => ?_⟩
      · rw [← hb] at hb0
        exact absurd hb0 (by simp)
      · rw [← hq]
        constructor <;> simp
    | some pos =>
      rw [add_position_exist p t s pr sc r pos hc hl] at h
      obtain ⟨hb, hq⟩ := Prod.mk.injEq .. ▸ h
      refine ⟨by simp [← hb, hc], fun hb0 => ?_, fun _ => ?_⟩
      · rw [← hb] at hb0
        exact absurd hb0 (by simp)
      · rw [← hq]
        constructor <;> simp

/-- Witness for C4 at the concrete inputs named by the spec: 20 shares
at 100 from 1000 cash fail with no state change; 10 shares at 100 from
10000 cash succeed leaving 9000 and one BUY trade. -/
theorem add_position_spec_witness :
    ((Portfolio.init 1000).add_position "BBB" 20 100 (1/2) "").1 = false ∧
    ((Portfolio.init 1000).add_position "BBB" 20 100 (1/2) "").2 = Portfolio.init 1000 ∧
    ((Portfolio.init 10000).add_position "AAA" 10 100 (1/2) "").1 = true ∧
    ((Portfolio.init 10000).add_position "AAA" 10 100 (1/2) "").2.cash = 9000 ∧
    ((Portfolio.init 10000).add_position "AAA" 10 100 (1/2) "").2.trades.length = 1 := by
  have h2 := add_position_spec (Portfolio.init 1000) "BBB" 20 100 (1/2) ""
    ((Portfolio.init 1000).add_position "BBB" 20 100 (1/2) "").1
    ((Portfolio.init 1000).add_position "BBB" 20 100 (1/2) "").2 rfl
  have h1 := add_position_spec (Portfolio.init 10000) "AAA" 10 100 (1/2) ""
    ((Portfolio.init 10000).add_position "AAA" 10 100 (1/2) "").1
    ((Portfolio.init 10000).add_position "AAA" 10 100 (1/2) "").2 rfl
  have hb2 : ((Portfolio.init 1000).add_position "BBB" 20 100 (1/2) "").1 = false :=
    h2.1.mpr (by norm_num [Portfolio.init])
  have hb1 : ((Portfolio.init 10000).add_position "AAA" 10 100 (1/2) "").1 = true := by
    norm_num [Portfolio.add_position, Portfolio.init]
  refine ⟨hb2, h2.2.1 hb2, hb1, ?_, ?_⟩
  · rw [(h1.2.2 hb1).1]
    norm_num [Portfolio.init]
  · rw [(h1.2.2 hb1).2]
    simp [Portfolio.init]

/-! ### C9: repeated buy into a held ticker -/

/-- C9: a successful AddPosition on an already-held ticker adds the new
shares to the share count and overwrites current_price/current_score,
while entry_price and entry_score keep the values from first creation. -/
theorem add_position_existing_spec (p : Portfolio) (t : String) (s : Int)
    (pr sc : ℚ) (r : String) (pos : Position) (b : Bool) (q : Portfolio)
    (hpos : lookupA t p.positions = some pos)
    (h : p.add_position t s pr sc r = (b, q)) (hb : b = true) :
    lookupA t q.positions =
      some { pos with shares := pos.shares + s, current_price := some pr, current_score := some sc } := by
  subst hb
  by_cases hc : p.cash < (s : ℚ) * pr
  · rw [add_position_fail p t s pr sc r hc] at h
    exact absurd (Prod.mk.injEq .. ▸ h).1 (by simp)
  · rw [add_position_exist p t s pr sc r pos hc hpos] at h
    obtain ⟨_, hq⟩ := Prod.mk.injEq .. ▸ h
    rw [← hq]
    simp only [updatePeak_positions]
    rw [lookupA_updateA_self, hpos]
    rfl

/-- Witness for C9: topping up a held 5-share position with 2 shares at
price 20 and score 1/4 yields 7 shares, current price 20, current score
1/4, and the original entry price 10 and entry score 0. -/
theorem add_position_existing_spec_witness :
    lookupA "AAA"
      (Portfolio.add_position
        { initial_capital := 100, cash := 100
          positions := [("AAA", { ticker := "AAA", shares := 5, entry_price := 10, entry_score := 0 })]
          trades := [], peak_value := 100 } "AAA" 2 20 (1/4) "").2.positions =
      some { ticker := "AAA", shares := 7, entry_price := 10, entry_score := 0,
             current_price := some 20, current_score := some (1/4) } := by
  have h := add_position_existing_spec
    { initial_capital := 100, cash := 100
      positions := [("AAA", { ticker := "AAA", shares := 5, entry_price := 10, entry_score := 0 })]
      trades := [], peak_value := 100 } "AAA" 2 20 (1/4) ""
    { ticker := "AAA", shares := 5, entry_price := 10, entry_score := 0 }
    (Portfolio.add_position
      { initial_capital := 100, cash := 100
        positions := [("AAA", { ticker := "AAA", shares := 5, entry_price := 10, entry_score := 0 })]
        trades := [], peak_value := 100 } "AAA" 2 20 (1/4) "").1
    (Portfolio.add_position
      { initial_capital := 100, cash := 100
        positions := [("AAA", { ticker := "AAA", shares := 5, entry_price := 10, entry_score := 0 })]
        trades := [], peak_value := 100 } "AAA" 2 20 (1/4) "").2
    (by simp [lookupA]) rfl
    (by norm_num [Portfolio.add_position])
  rw [h]
  norm_num

/-! ### C7: position sizing function -/

/-- C7: for scores in the unit interval, calculate_size returns
clamp(1/10, 9/10, 1/2 + (2/5) of the score); every returned value lies
in that band; the returned value is non-decreasing in the score; and
any score outside the unit interval is rejected (no value returned). -/
theorem calculate_size_spec (s : ℚ) :
    (0 ≤ s ∧ s ≤ 1 →
      PositionSizer.calculate_size s = some (max (1/10) (min (9/10) (1/2 + (2/5) * s)))) ∧
    (∀ v, PositionSizer.calculate_size s = some v → 1/10 ≤ v ∧ v ≤ 9/10) ∧
    (∀ t v w, s ≤ t → PositionSizer.calculate_size s = some v →
      PositionSizer.calculate_size t = some w → v ≤ w) ∧
    (¬ (0 ≤ s ∧ s ≤ 1) → PositionSizer.calculate_size s = none) := by
  have hval : ∀ u v : ℚ, PositionSizer.calculate_size u = some v →
      v = max (1/10) (min (9/10) (1/2 + (2/5) * u)) := by
    intro u v hv
    by_cases hu : 0 ≤ u ∧ u ≤ 1
    · simp only [PositionSizer.calculate_size, PositionSizer.base_allocation,
        PositionSizer.confidence_scaling, PositionSizer.max_position_pct,
        PositionSizer.min_position_pct] at hv
      rw [if_neg (not_not_intro hu)] at hv
      rw [← Option.some.inj hv]
      simp [max_comm, min_comm, mul_comm]
    · simp [PositionSizer.calculate_size, hu] at hv
  refine ⟨?_, ?_, ?_, ?_⟩
  · intro hs
    simp only [PositionSizer.calculate_size, PositionSizer.base_allocation,
      PositionSizer.confidence_scaling, PositionSizer.max_position_pct,
      PositionSizer.min_position_pct]
    rw [if_neg (not_not_intro hs)]
    simp [max_comm, min_comm, mul_comm]
  · intro v hv
    rw [hval s v hv]
    constructor
    · exact le_max_left _ _
    · exact max_le (by norm_num) (min_le_left _ _)
  · intro t v w hst hv hw
    rw [hval s v hv, hval t w hw]
    have : 1/2 + (2/5) * s ≤ 1/2 + (2/5) * t := by linarith
    exact max_le_max (le_refl _) (min_le_min (le_refl _) this)
  · intro hs
    simp [PositionSizer.calculate_size, hs]

/-- Witness for C7: a score of 7/10 yields 1/2 + 14/50 = 39/50, inside
the band, and a score of 2 is rejected. -/
theorem calculate_size_spec_witness :
    PositionSizer.calculate_size (7/10) = some (39/50) ∧
    PositionSizer.calculate_size 2 = none := by
  have h := calculate_size_spec (7/10)
  have h2 := calculate_size_spec 2
  constructor
  · rw [h.1 (by norm_num)]
    norm_num
  · exact h2.2.2.2 (by norm_num)

/-! ### C8: execute_rotation error taxonomy and check order -/

/-- C8: execute_rotation first reports missing price data when either
ticker is absent from the price snapshot, then invalid prices when a
looked-up price is non-positive, and otherwise mirrors the outcome of
Portfolio.rotate_position: a failure message exactly when the rotation
declines and success with no error exactly when it succeeds. -/
theorem execute_rotation_spec (lr : List (String × String)) (p : Portfolio)
    (st bt : String) (prices : List (String × ℚ)) (ns : ℚ) (r : String) :
    (lookupA st prices = none ∨ lookupA bt prices = none →
      (RotationEngine.execute_rotation lr p st bt prices ns r).1 =
        (false, some "Price data missing")) ∧
    (∀ sp bp, lookupA st prices = some sp → lookupA bt prices = some bp →
      ((sp ≤ 0 ∨ bp ≤ 0) →
        (RotationEngine.execute_rotation lr p st bt prices ns r).1 =
          (false, some "Invalid prices")) ∧
      (0 < sp → 0 < bp →
        ((p.rotate_position st bt sp bp ns r).1 = false →
          (RotationEngine.execute_rotation lr p st bt prices ns r).1 =
            (false, some "Rotation failed: insufficient proceeds or cash")) ∧
        ((p.rotate_position st bt sp bp ns r).1 = true →
          (RotationEngine.execute_rotation lr p st bt prices ns r).1 = (true, none)))) := by
  constructor
  · intro hmiss
    cases hst : lookupA st prices with
    | none => simp [RotationEngine.execute_rotation, hst]
    | some sp =>
      cases hbt : lookupA bt prices with
      | none => simp [RotationEngine.execute_rotation, hst, hbt]
      | some bp =>
        rw [hst, hbt] at hmiss
        rcases hmiss with hmiss | hmiss <;> exact absurd hmiss (by simp)
  · intro sp bp hst hbt
    constructor
    · intro hbad
      simp [RotationEngine.execute_rotation, hst, hbt, hbad]
    · intro hsp hbp
      have hbad : ¬ (sp ≤ 0 ∨ bp ≤ 0) := by
        push_neg
        exact ⟨hsp, hbp⟩
      constructor
      · intro hrot
        simp [RotationEngine.execute_rotation, hst, hbt, hbad, hrot]
      · intro hrot
        simp [RotationEngine.execute_rotation, hst, hbt, hbad, hrot]

/-- Witness for C8: with an empty price snapshot the call reports
missing price data; with a non-positive buy price it reports invalid
prices. -/
theorem execute_rotation_spec_witness :
    (RotationEngine.execute_rotation [] (Portfolio.init 100) "AAA" "BBB" [] 0 "").1 =
      (false, some "Price data missing") ∧
    (RotationEngine.execute_rotation [] (Portfolio.init 100) "AAA" "BBB"
      [("AAA", 5), ("BBB", -1)] 0 "").1 = (false, some "Invalid prices") := by
  have h1 := execute_rotation_spec [] (Portfolio.init 100) "AAA" "BBB" [] 0 ""
  have h2 := execute_rotation_spec [] (Portfolio.init 100) "AAA" "BBB"
    [("AAA", 5), ("BBB", -1)] 0 ""
  constructor
  · exact h1.1 (Or.inl (by simp [lookupA]))
  · exact (h2.2 5 (-1) (by simp [lookupA]) (by simp [lookupA])).1 (Or.inr (by norm_num))

/-! ### C1: atomicity of rotate_position -/

/-- C1 (amended): for a portfolio with non-negative cash whose sell
position holds at least one share, with positive sell and buy prices
and a buy ticker not already held, RotatePosition declines with no
mutation when the sell ticker is not held or the derived share count
floor(sellShares * sellPrice / buyPrice) is zero, and otherwise
succeeds, removing the sell position, creating the buy position with
exactly the derived share count at the buy price, and leaving
cash + proceeds - sharesToBuy * buyPrice in cash. -/
theorem rotate_position_spec (p : Portfolio) (st bt : String) (sp bp ns : ℚ)
    (r : String) (hcash : 0 ≤ p.cash) (hsp : 0 < sp) (hbp : 0 < bp)
    (hbt : lookupA bt p.positions = none) :
    (lookupA st p.positions = none → p.rotate_position st bt sp bp ns r = (false, p)) ∧
    (∀ pos, lookupA st p.positions = some pos →
      ⌊(pos.shares : ℚ) * sp / bp⌋ = 0 →
      p.rotate_position st bt sp bp ns r = (false, p)) ∧
    (∀ pos, lookupA st p.positions = some pos → 1 ≤ pos.shares →
      ∀ n : Int, n = ⌊(pos.shares : ℚ) * sp / bp⌋ → n ≠ 0 →
      (p.rotate_position st bt sp bp ns r).1 = true ∧
      lookupA st (p.rotate_position st bt sp bp ns r).2.positions = none ∧
      lookupA bt (p.rotate_position st bt sp bp ns r).2.positions =
        some (freshPosition bt n bp ns) ∧
      (p.rotate_position st bt sp bp ns r).2.cash =
        p.cash + (pos.shares : ℚ) * sp - (n : ℚ) * bp) := by
  refine ⟨?_, ?_, ?_⟩
  · intro h
    simp [Portfolio.rotate_position, h]
  · intro pos hpos hfl
    have hq : (0 : ℚ) ≤ (pos.shares : ℚ) * sp / bp := by
      have := Int.floor_le ((pos.shares : ℚ) * sp / bp)
      rw [hfl] at this
      exact_mod_cast this
    have hz : pyInt ((pos.shares : ℚ) * sp / bp) = 0 := by
      rw [pyInt, if_pos hq, hfl]
    simp [Portfolio.rotate_position, hpos, hz]
  · intro pos hpos hs1 n hn hn0
    have hshq : (0 : ℚ) < (pos.shares : ℚ) := by exact_mod_cast lt_of_lt_of_le zero_lt_one hs1
    have hq : (0 : ℚ) < (pos.shares : ℚ) * sp / bp := div_pos (mul_pos hshq hsp) hbp
    have hpyInt : pyInt ((pos.shares : ℚ) * sp / bp) = ⌊(pos.shares : ℚ) * sp / bp⌋ := by
      rw [pyInt, if_pos (le_of_lt hq)]
    have hne : st ≠ bt := by
      intro he
      rw [he, hbt] at hpos
      cases hpos
    have hcost : (n : ℚ) * bp ≤ (pos.shares : ℚ) * sp := by
      have h1 : (n : ℚ) ≤ (pos.shares : ℚ) * sp / bp := by
        rw [hn]
        exact Int.floor_le _
      calc (n : ℚ) * bp ≤ ((pos.shares : ℚ) * sp / bp) * bp :=
            mul_le_mul_of_nonneg_right h1 (le_of_lt hbp)
        _ = (pos.shares : ℚ) * sp := div_mul_cancel₀ _ (ne_of_gt hbp)
    have key : p.rotate_position st bt sp bp ns r =
        Portfolio.add_position (Portfolio.updatePeak
          { p with
            trades := p.trades ++ [sellTrade st pos.shares sp (pyOr pos.current_score 0) r]
            cash := p.cash + (pos.shares : ℚ) * sp
            positions := eraseA st p.positions }) bt n bp ns r := by
      simp only [Portfolio.rotate_position, hpos]
      rw [hpyInt, ← hn, if_neg hn0, remove_position_found p st sp r pos hpos]
      simp
    have hblk : lookupA bt (Portfolio.updatePeak
        { p with
          trades := p.trades ++ [sellTrade st pos.shares sp (pyOr pos.current_score 0) r]
          cash := p.cash + (pos.shares : ℚ) * sp
          positions := eraseA st p.positions }).positions = none := by
      rw [updatePeak_positions]
      show lookupA bt (eraseA st p.positions) = none
      rw [lookupA_eraseA_ne hne, hbt]
    have hcond : ¬ (Portfolio.updatePeak
        { p with
          trades := p.trades ++ [sellTrade st pos.shares sp (pyOr pos.current_score 0) r]
          cash := p.cash + (pos.shares : ℚ) * sp
          positions := eraseA st p.positions }).cash < (n : ℚ) * bp := by
      rw [updatePeak_cash]
      show ¬ p.cash + (pos.shares : ℚ) * sp < (n : ℚ) * bp
      push_neg
      linarith
    rw [key, add_position_new _ bt n bp ns r hcond hblk]
    refine ⟨rfl, ?_, ?_, ?_⟩
    · rw [updatePeak_positions]
      show lookupA st ((Portfolio.updatePeak _).positions ++ [(bt, freshPosition bt n bp ns)]) = none
      rw [lookupA_append, updatePeak_positions]
      show (lookupA st (eraseA st p.positions)).or _ = none
      rw [lookupA_eraseA_self]
      simp [lookupA, Ne.symm hne]
    · rw [updatePeak_positions]
      show lookupA bt ((Portfolio.updatePeak _).positions ++ [(bt, freshPosition bt n bp ns)]) = none.or _
      rw [lookupA_append, updatePeak_positions]
      show (lookupA bt (eraseA st p.positions)).or _ = _
      rw [lookupA_eraseA_ne hne, hbt]
      simp [lookupA]
    · rw [updatePeak_cash]
      show (Portfolio.updatePeak _).cash - (n : ℚ) * bp = _
      rw [updatePeak_cash]

/-- Witness for C1 at the spec example: rotating a 50-share position
sold at 105 into a 200-priced target buys exactly floor(5250/200) = 26
shares, removes the old ticker, and leaves 5000 + 5250 - 5200 = 5050
in cash. -/
theorem rotate_position_spec_witness :
    (Portfolio.rotate_position
      { initial_capital := 10000, cash := 5000
        positions := [("OLD", { ticker := "OLD", shares := 50, entry_price := 100, entry_score := 1/2, current_price := some 100, current_score := some (1/2) })]
        trades := [], peak_value := 10000 } "OLD" "NEW" 105 200 (3/5) "").1 = true ∧
    lookupA "OLD" (Portfolio.rotate_position
      { initial_capital := 10000, cash := 5000
        positions := [("OLD", { ticker := "OLD", shares := 50, entry_price := 100, entry_score := 1/2, current_price := some 100, current_score := some (1/2) })]
        trades := [], peak_value := 10000 } "OLD" "NEW" 105 200 (3/5) "").2.positions = none ∧
    lookupA "NEW" (Portfolio.rotate_position
      { initial_capital := 10000, cash := 5000
        positions := [("OLD", { ticker := "OLD", shares := 50, entry_price := 100, entry_score := 1/2, current_price := some 100, current_score := some (1/2) })]
        trades := [], peak_value := 10000 } "OLD" "NEW" 105 200 (3/5) "").2.positions =
      some (freshPosition "NEW" 26 200 (3/5)) ∧
    (Portfolio.rotate_position
      { initial_capital := 10000, cash := 5000
        positions := [("OLD", { ticker := "OLD", shares := 50, entry_price := 100, entry_score := 1/2, current_price := some 100, current_score := some (1/2) })]
        trades := [], peak_value := 10000 } "OLD" "NEW" 105 200 (3/5) "").2.cash = 5050 := by
  have hfl : (26 : ℤ) = ⌊(((50 : ℤ) : ℚ)) * 105 / 200⌋ := by
    rw [eq_comm, Int.floor_eq_iff]; norm_num
  have h := (rotate_position_spec
    { initial_capital := 10000, cash := 5000
      positions := [("OLD", { ticker := "OLD", shares := 50, entry_price := 100, entry_score := 1/2, current_price := some 100, current_score := some (1/2) })]
      trades := [], peak_value := 10000 } "OLD" "NEW" 105 200 (3/5) ""
    (by norm_num) (by norm_num) (by norm_num) (by simp [lookupA])).2.2
    { ticker := "OLD", shares := 50, entry_price := 100, entry_score := 1/2, current_price := some 100, current_score := some (1/2) }
    (by simp [lookupA]) (by norm_num) 26 hfl (by norm_num)
  refine ⟨h.1, h.2.1, h.2.2.1, ?_⟩
  rw [h.2.2.2]
  norm_num

/-- C1 counterexample: with zero cash, one held share and a negative
sell price, the derived share count floor(1 * (-5) / 3) = -2 is
non-zero, so the claim requires the call to return true; instead the
code returns false after having already executed the sell leg: cash has
dropped to -5, the position is gone and a SELL trade was recorded — a
partial mutation on a false return. -/
theorem rotate_position_partial_mutation_cex :
    lookupA "AAA" (Portfolio.mk 0 0
      [("AAA", { ticker := "AAA", shares := 1, entry_price := 1, entry_score := 0 })] [] 0).positions =
      some { ticker := "AAA", shares := 1, entry_price := 1, entry_score := 0 } ∧
    (⌊((1 : ℚ)) * (-5) / 3⌋ : ℤ) ≠ 0 ∧
    (Portfolio.rotate_position (Portfolio.mk 0 0
      [("AAA", { ticker := "AAA", shares := 1, entry_price := 1, entry_score := 0 })] [] 0)
      "AAA" "BBB" (-5) 3 0 "").1 = false ∧
    (Portfolio.rotate_position (Portfolio.mk 0 0
      [("AAA", { ticker := "AAA", shares := 1, entry_price := 1, entry_score := 0 })] [] 0)
      "AAA" "BBB" (-5) 3 0 "").2.cash = -5 ∧
    (Portfolio.rotate_position (Portfolio.mk 0 0
      [("AAA", { ticker := "AAA", shares := 1, entry_price := 1, entry_score := 0 })] [] 0)
      "AAA" "BBB" (-5) 3 0 "").2.trades.length = 1 ∧
    lookupA "AAA" (Portfolio.rotate_position (Portfolio.mk 0 0
      [("AAA", { ticker := "AAA", shares := 1, entry_price := 1, entry_score := 0 })] [] 0)
      "AAA" "BBB" (-5) 3 0 "").2.positions = none := by
  have hfl : (⌊((1 : ℚ)) * (-5) / 3⌋ : ℤ) = -2 := by
    rw [Int.floor_eq_iff]; norm_num
  have hc : (⌈-((5 : ℚ) / 3)⌉ : ℤ) = -1 := by
    rw [Int.ceil_eq_iff]; norm_num
  refine ⟨by simp [lookupA], by rw [hfl]; norm_num, ?_, ?_, ?_, ?_⟩ <;>
    norm_num [Portfolio.rotate_position, Portfolio.remove_position, Portfolio.add_position,
      lookupA, eraseA, pyInt, pyOr, Portfolio.updatePeak, Portfolio.portfolio_value,
      Position.current_value, Position.entry_value, hc]

/-! ### C10: frame property of update_prices -/

theorem update_price_none (pos : Position) (pr : ℚ) :
    pos.update_price pr = { pos with current_price := some pr } := rfl

theorem lookupA_eq_none_of_not_mem_keys {β : Type} {t : String} {l : List (String × β)}
    (h : t ∉ l.map Prod.fst) : lookupA t l = none := by
  rw [lookupA_eq_none_iff]
  intro e he het
  exact h (het ▸ List.mem_map_of_mem Prod.fst he)

theorem updStep_eq_map (acc : List (String × Position)) (t : String) (pr : ℚ) :
    (match lookupA t acc with
     | some _ => updateA t (fun pos => pos.update_price pr) acc
     | none => acc) =
    acc.map (fun x => if x.1 = t then (x.1, x.2.update_price pr) else x) := by
  cases hl : lookupA t acc with
  | some v => rw [updateA_eq_map]
  | none =>
    have hall := (lookupA_eq_none_iff t acc).1 hl
    calc acc = acc.map id := (List.map_id acc).symm
      _ = acc.map (fun x => if x.1 = t then (x.1, x.2.update_price pr) else x) := by
          apply List.map_congr_left
          intro x hx
          simp [hall x hx]

theorem update_prices_foldl (d : List (String × ℚ)) :
    ∀ acc : List (String × Position), (d.map Prod.fst).Nodup →
    d.foldl (fun (acc : List (String × Position)) (e : String × ℚ) =>
        match lookupA e.1 acc with
        | some _ => updateA e.1 (fun pos => pos.update_price e.2) acc
        | none => acc) acc =
      acc.map (fun e =>
        match lookupA e.1 d with
        | some pr => (e.1, e.2.update_price pr)
        | none => e) := by
  induction d with
  | nil =>
    intro acc _
    simp only [List.foldl_nil, lookupA]
    calc acc = acc.map id := (List.map_id acc).symm
      _ = _ := List.map_congr_left (fun x hx => rfl)
  | cons e d ih =>
    intro acc hnd
    simp only [List.map_cons, List.nodup_cons] at hnd
    rw [List.foldl_cons, ih _ hnd.2, updStep_eq_map, List.map_map]
    apply List.map_congr_left
    intro x hx
    by_cases hxt : x.1 = e.1
    · have hnone : lookupA e.1 d = none :=
        lookupA_eq_none_of_not_mem_keys hnd.1
      simp [Function.comp, hxt, hnone, lookupA]
    · have hne : e.1 ≠ x.1 := fun h => hxt h.symm
      simp [Function.comp, hxt, lookupA, hne]

/-- C10: UpdatePrices keeps cash, initial capital and the trade history
unchanged, and replaces the position list by one in which exactly the
positions whose ticker occurs in the price map get that price as their
current_price, all other fields and all other positions being untouched
(tickers in the map that are not held are ignored, since the new
position list is a pointwise image of the old one). -/
theorem update_prices_spec (p : Portfolio) (d : List (String × ℚ))
    (hd : (d.map Prod.fst).Nodup) :
    (p.update_prices d).cash = p.cash ∧
    (p.update_prices d).initial_capital = p.initial_capital ∧
    (p.update_prices d).trades = p.trades ∧
    (p.update_prices d).positions = p.positions.map (fun e =>
      match lookupA e.1 d with
      | some pr => (e.1, { e.2 with current_price := some pr })
      | none => e) := by
  refine ⟨by simp [Portfolio.update_prices], by simp [Portfolio.update_prices],
    by simp [Portfolio.update_prices], ?_⟩
  show (Portfolio.updatePeak _).positions = _
  rw [updatePeak_positions]
  show List.foldl _ p.positions d = _
  rw [update_prices_foldl d p.positions hd]
  apply List.map_congr_left
  intro x hx
  cases lookupA x.1 d with
  | none => rfl
  | some pr => rfl

/-- Witness for C10: updating prices of a held ticker and an unheld one
changes only the held position's current price, and nothing else. -/
theorem update_prices_spec_witness :
    (Portfolio.update_prices
      (Portfolio.mk 100 40
        [("AAA", { ticker := "AAA", shares := 2, entry_price := 10, entry_score := 0 }),
         ("BBB", { ticker := "BBB", shares := 3, entry_price := 5, entry_score := 0 })]
        [] 100) [("AAA", 42), ("CCC", 7)]).cash = 40 ∧
    (Portfolio.update_prices
      (Portfolio.mk 100 40
        [("AAA", { ticker := "AAA", shares := 2, entry_price := 10, entry_score := 0 }),
         ("BBB", { ticker := "BBB", shares := 3, entry_price := 5, entry_score := 0 })]
        [] 100) [("AAA", 42), ("CCC", 7)]).trades = [] ∧
    (Portfolio.update_prices
      (Portfolio.mk 100 40
        [("AAA", { ticker := "AAA", shares := 2, entry_price := 10, entry_score := 0 }),
         ("BBB", { ticker := "BBB", shares := 3, entry_price := 5, entry_score := 0 })]
        [] 100) [("AAA", 42), ("CCC", 7)]).positions =
      [("AAA", { ticker := "AAA", shares := 2, entry_price := 10, entry_score := 0, current_price := some 42, current_score := none }),
       ("BBB", { ticker := "BBB", shares := 3, entry_price := 5, entry_score := 0 })] := by
  have h := update_prices_spec
    (Portfolio.mk 100 40
      [("AAA", { ticker := "AAA", shares := 2, entry_price := 10, entry_score := 0 }),
       ("BBB", { ticker := "BBB", shares := 3, entry_price := 5, entry_score := 0 })]
      [] 100) [("AAA", 42), ("CCC", 7)] (by simp)
  refine ⟨h.1, h.2.2.1, ?_⟩
  rw [h.2.2.2]
  simp [lookupA]

/-! ### C5: evaluate_rotations output characterisation -/

/-- C5: every (sellTicker, buyTicker, gain) triple returned by
evaluate_rotations has a buy ticker that is not held and a sell ticker
that is held, its gain equals the candidate watchlist score minus the
holding score (current score or 0 when unset), the gain strictly
exceeds the threshold, and the returned list is sorted in descending
order of gain. -/
theorem evaluate_rotations_spec (th : ℚ) (p : Portfolio) (w : List (String × ℚ))
    (hp : (p.positions.map Prod.fst).Nodup) (hw : (w.map Prod.fst).Nodup) :
    (∀ x ∈ RotationEngine.evaluate_rotations th p w,
      lookupA x.2.1 p.positions = none ∧
      th < x.2.2 ∧
      ∃ pos, lookupA x.1 p.positions = some pos ∧
        ∃ cs, lookupA x.2.1 w = some cs ∧ x.2.2 = cs - pyOr pos.current_score 0) ∧
    (RotationEngine.evaluate_rotations th p w).Sorted RotationEngine.gainGE := by
  constructor
  · intro x hx
    rw [RotationEngine.evaluate_rotations, List.mem_insertionSort] at hx
    rcases List.mem_flatMap.1 hx with ⟨h, hh, hxc⟩
    rcases List.mem_filterMap.1 hxc with ⟨c, hc, hfc⟩
    by_cases h1 : (lookupA c.1 p.positions).isSome
    · simp [h1] at hfc
    · by_cases h2 : th < c.2 - pyOr h.2.current_score 0
      · rw [if_neg h1, if_pos h2] at hfc
        obtain rfl : (h.1, c.1, c.2 - pyOr h.2.current_score 0) = x := Option.some.inj hfc
        refine ⟨Option.not_isSome_iff_eq_none.1 h1, h2, h.2, ?_, c.2, ?_, rfl⟩
        · have hh2 : (h.1, h.2) ∈ p.positions := by rw [Prod.mk.eta]; exact hh
          exact mem_lookupA_nodup hp hh2
        · have hc2 : (c.1, c.2) ∈ w := by rw [Prod.mk.eta]; exact hc
          exact mem_lookupA_nodup hw hc2
      · rw [if_neg h1, if_neg h2] at hfc
        cases hfc
  · exact List.sorted_insertionSort _ _

/-- Witness for C5: with one held position scoring 1/2 and candidates
scoring 9/10 and 1/10, the single proposed rotation targets the unheld
candidate with gain 2/5 above the default threshold, and the output is
sorted. -/
theorem evaluate_rotations_spec_witness :
    ("OLD", "NEW", (2/5 : ℚ)) ∈ RotationEngine.evaluate_rotations (1/50)
      (Portfolio.mk 100 100
        [("OLD", { ticker := "OLD", shares := 1, entry_price := 10, entry_score := 1/2, current_price := some 10, current_score := some (1/2) })]
        [] 100) [("NEW", 9/10), ("LOW", 1/10)] ∧
    lookupA "NEW" (Portfolio.mk 100 100
      [("OLD", { ticker := "OLD", shares := 1, entry_price := 10, entry_score := 1/2, current_price := some 10, current_score := some (1/2) })]
      [] 100).positions = none ∧
    (1/50 : ℚ) < 2/5 ∧
    (RotationEngine.evaluate_rotations (1/50)
      (Portfolio.mk 100 100
        [("OLD", { ticker := "OLD", shares := 1, entry_price := 10, entry_score := 1/2, current_price := some 10, current_score := some (1/2) })]
        [] 100) [("NEW", 9/10), ("LOW", 1/10)]).Sorted RotationEngine.gainGE := by
  have h := evaluate_rotations_spec (1/50)
    (Portfolio.mk 100 100
      [("OLD", { ticker := "OLD", shares := 1, entry_price := 10, entry_score := 1/2, current_price := some 10, current_score := some (1/2) })]
      [] 100) [("NEW", 9/10), ("LOW", 1/10)] (by simp) (by simp)
  have hm : ("OLD", "NEW", (2/5 : ℚ)) ∈ RotationEngine.evaluate_rotations (1/50)
      (Portfolio.mk 100 100
        [("OLD", { ticker := "OLD", shares := 1, entry_price := 10, entry_score := 1/2, current_price := some 10, current_score := some (1/2) })]
        [] 100) [("NEW", 9/10), ("LOW", 1/10)] := by
    have hne : ¬ "OLD" = "NEW" := by decide
    norm_num [RotationEngine.evaluate_rotations, lookupA, pyOr, List.insertionSort,
      List.orderedInsert, hne]
  exact ⟨hm, (h.1 _ hm).1, (h.1 _ hm).2.1, h.2⟩

/-! ### C2: cash never goes negative -/

/-- The states reachable under the C2 side conditions: non-negative
cash and at least one share in every held position. -/
def GoodState (p : Portfolio) : Prop :=
  0 ≤ p.cash ∧ ∀ e ∈ p.positions, 1 ≤ e.2.shares

theorem add_position_good (p : Portfolio) (t : String) (s : Int) (pr sc : ℚ)
    (r : String) (h : GoodState p) (hs : 1 ≤ s) (_hpr : 0 < pr) :
    GoodState (p.add_position t s pr sc r).2 := by
  by_cases hc : p.cash < (s : ℚ) * pr
  · rw [add_position_fail p t s pr sc r hc]
    exact h
  · push_neg at hc
    cases hl : lookupA t p.positions with
    | none =>
      rw [add_position_new p t s pr sc r (not_lt.mpr hc) hl]
      constructor
      · rw [updatePeak_cash]
        show 0 ≤ p.cash - (s : ℚ) * pr
        linarith
      · rw [updatePeak_positions]
        intro e he
        rcases List.mem_append.1 he with he | he
        · exact h.2 e he
        · rw [List.mem_singleton.1 he]
          exact hs
    | some pos =>
      rw [add_position_exist p t s pr sc r pos (not_lt.mpr hc) hl]
      constructor
      · rw [updatePeak_cash]
        show 0 ≤ p.cash - (s : ℚ) * pr
        linarith
      · rw [updatePeak_positions]
        intro e he
        rcases mem_updateA he with he | ⟨v, hv, rfl⟩
        · exact h.2 e he
        · have h1 : 1 ≤ v.shares := h.2 (t, v) hv
          show 1 ≤ v.shares + s
          omega

theorem remove_position_good (p : Portfolio) (t : String) (pr : ℚ)
    (r : String) (h : GoodState p) (hpr : 0 < pr) :
    GoodState (p.remove_position t pr r).2 := by
  cases hl : lookupA t p.positions with
  | none =>
    rw [remove_position_notfound p t pr r hl]
    exact h
  | some pos =>
    rw [remove_position_found p t pr r pos hl]
    constructor
    · rw [updatePeak_cash]
      show 0 ≤ p.cash + (pos.shares : ℚ) * pr
      have h1 : 1 ≤ pos.shares := h.2 (t, pos) (lookupA_some_mem hl)
      have h2 : (1 : ℚ) ≤ (pos.shares : ℚ) := by exact_mod_cast h1
      nlinarith [h.1]
    · rw [updatePeak_positions]
      intro e he
      exact h.2 e (mem_eraseA he)

theorem update_prices_good (p : Portfolio) (d : List (String × ℚ))
    (h : GoodState p) : GoodState (p.update_prices d) := by
  have key : ∀ (d : List (String × ℚ)) (acc : List (String × Position)),
      (∀ e ∈ acc, 1 ≤ e.2.shares) →
      ∀ e ∈ List.foldl (fun (acc : List (String × Position)) (x : String × ℚ) =>
        match lookupA x.1 acc with
        | some _ => updateA x.1 (fun pos => pos.update_price x.2) acc
        | none => acc) acc d, 1 ≤ e.2.shares := by
    intro d
    induction d with
    | nil => intro acc hacc; simpa using hacc
    | cons x d ih =>
      intro acc hacc
      rw [List.foldl_cons]
      apply ih
      intro e he
      cases hl : lookupA x.1 acc with
      | none =>
        rw [hl] at he
        exact hacc e he
      | some v =>
        rw [hl] at he
        rcases mem_updateA he with he | ⟨w, hw, rfl⟩
        · exact hacc e he
        · exact hacc (x.1, w) hw
  constructor
  · have hcash : (p.update_prices d).cash = p.cash := by
      simp [Portfolio.update_prices]
    rw [hcash]
    exact h.1
  · intro e he
    have hpos : (p.update_prices d).positions =
        List.foldl (fun (acc : List (String × Position)) (x : String × ℚ) =>
          match lookupA x.1 acc with
          | some _ => updateA x.1 (fun pos => pos.update_price x.2) acc
          | none => acc) p.positions d := by
      simp [Portfolio.update_prices]
    rw [hpos] at he
    exact key d p.positions h.2 e he

theorem rotate_position_good (p : Portfolio) (st bt : String) (sp bp ns : ℚ)
    (r : String) (h : GoodState p) (hsp : 0 < sp) (hbp : 0 < bp) :
    GoodState (p.rotate_position st bt sp bp ns r).2 := by
  cases hl : lookupA st p.positions with
  | none =>
    simp only [Portfolio.rotate_position, hl]
    exact h
  | some pos =>
    have hsh : 1 ≤ pos.shares := h.2 (st, pos) (lookupA_some_mem hl)
    by_cases hz : pyInt ((pos.shares : ℚ) * sp / bp) = 0
    · simp only [Portfolio.rotate_position, hl, hz, if_pos]
      exact h
    · have hq : (0 : ℚ) < (pos.shares : ℚ) * sp / bp := by
        have hshq : (0 : ℚ) < (pos.shares : ℚ) := by
          exact_mod_cast lt_of_lt_of_le zero_lt_one hsh
        exact div_pos (mul_pos hshq hsp) hbp
      have hfl : pyInt ((pos.shares : ℚ) * sp / bp) = ⌊(pos.shares : ℚ) * sp / bp⌋ := by
        rw [pyInt, if_pos (le_of_lt hq)]
      have hn1 : 1 ≤ pyInt ((pos.shares : ℚ) * sp / bp) := by
        rw [hfl]
        rw [hfl] at hz
        have h0 : 0 ≤ ⌊(pos.shares : ℚ) * sp / bp⌋ := Int.floor_nonneg.mpr (le_of_lt hq)
        omega
      have hrm : GoodState (p.remove_position st sp r).2 :=
        remove_position_good p st sp r h hsp
      simp only [Portfolio.rotate_position, hl]
      rw [if_neg hz]
      split
      · exact hrm
      · exact add_position_good _ bt _ bp ns r hrm hn1 hbp

theorem applyOp_good (p : Portfolio) (op : Op) (h : GoodState p) (hv : op.Valid) :
    GoodState (applyOp p op) := by
  cases op with
  | add t s pr sc r => exact add_position_good p t s pr sc r h hv.1 hv.2
  | remove t pr r => exact remove_position_good p t pr r h hv
  | rotate st bt sp bp ns r => exact rotate_position_good p st bt sp bp ns r h hv.1 hv.2
  | update d => exact update_prices_good p d h

/-- C2: starting from Portfolio(initial_capital) with non-negative
initial capital, any sequence of AddPosition, RemovePosition,
RotatePosition and UpdatePrices calls in which every buy/sell leg uses
at least one share and a positive price leaves cash non-negative. -/
theorem cash_never_negative (c : ℚ) (hc : 0 ≤ c) (ops : List Op)
    (hv : ∀ op ∈ ops, op.Valid) :
    0 ≤ (applyOps (Portfolio.init c) ops).cash := by
  have hgen : ∀ (ops : List Op) (p : Portfolio), GoodState p →
      (∀ op ∈ ops, op.Valid) → GoodState (applyOps p ops) := by
    intro ops
    induction ops with
    | nil =>
      intro p h _
      exact h
    | cons op ops ih =>
      intro p h hv
      show GoodState (List.foldl applyOp p (op :: ops))
      rw [List.foldl_cons]
      exact ih _ (applyOp_good p op h (hv op (List.mem_cons_self _ _)))
        (fun o ho => hv o (List.mem_cons_of_mem _ ho))
  have hinit : GoodState (Portfolio.init c) := by
    constructor
    · simpa [Portfolio.init] using hc
    · simp [Portfolio.init]
  exact (hgen ops (Portfolio.init c) hinit hv).1

/-- Witness for C2: a buy of one share at price 2 followed by a sell at
price 3 and a price update, from capital 10, keeps cash non-negative. -/
theorem cash_never_negative_witness :
    (0 : ℚ) ≤ 10 ∧
    (∀ op ∈ [Op.add "AAA" 1 2 0 "", Op.remove "AAA" 3 "", Op.update [("AAA", 4)]], op.Valid) ∧
    0 ≤ (applyOps (Portfolio.init 10)
      [Op.add "AAA" 1 2 0 "", Op.remove "AAA" 3 "", Op.update [("AAA", 4)]]).cash := by
  have hv : ∀ op ∈ [Op.add "AAA" 1 2 0 "", Op.remove "AAA" 3 "", Op.update [("AAA", 4)]],
      op.Valid := by
    intro op hop
    rcases List.mem_cons.1 hop with rfl | hop
    · exact ⟨le_refl 1, by norm_num⟩
    rcases List.mem_cons.1 hop with rfl | hop
    · show (0 : ℚ) < 3
      norm_num
    rcases List.mem_cons.1 hop with rfl | hop
    · trivial
    · cases hop
  exact ⟨by norm_num, hv, cash_never_negative 10 (by norm_num) _ hv⟩

/-! ### C3: peak value is monotone and dominates portfolio value -/

theorem add_position_peak (p : Portfolio) (t : String) (s : Int) (pr sc : ℚ)
    (r : String) :
    p.peak_value ≤ (p.add_position t s pr sc r).2.peak_value ∧
    (p.portfolio_value ≤ p.peak_value →
      (p.add_position t s pr sc r).2.portfolio_value ≤
        (p.add_position t s pr sc r).2.peak_value) := by
  by_cases hc : p.cash < (s : ℚ) * pr
  · rw [add_position_fail p t s pr sc r hc]
    exact ⟨le_refl _, id⟩
  · cases hl : lookupA t p.positions with
    | none =>
      rw [add_position_new p t s pr sc r hc hl]
      exact ⟨peak_le_updatePeak_of_eq p _ rfl, fun _ => pv_le_updatePeak_peak _⟩
    | some pos =>
      rw [add_position_exist p t s pr sc r pos hc hl]
      exact ⟨peak_le_updatePeak_of_eq p _ rfl, fun _ => pv_le_updatePeak_peak _⟩

theorem remove_position_peak (p : Portfolio) (t : String) (pr : ℚ) (r : String) :
    p.peak_value ≤ (p.remove_position t pr r).2.peak_value ∧
    (p.portfolio_value ≤ p.peak_value →
      (p.remove_position t pr r).2.portfolio_value ≤
        (p.remove_position t pr r).2.peak_value) := by
  cases hl : lookupA t p.positions with
  | none =>
    rw [remove_position_notfound p t pr r hl]
    exact ⟨le_refl _, id⟩
  | some pos =>
    rw [remove_position_found p t pr r pos hl]
    exact ⟨peak_le_updatePeak_of_eq p _ rfl, fun _ => pv_le_updatePeak_peak _⟩

theorem update_prices_peak (p : Portfolio) (d : List (String × ℚ)) :
    p.peak_value ≤ (p.update_prices d).peak_value ∧
    (p.update_prices d).portfolio_value ≤ (p.update_prices d).peak_value :=
  ⟨peak_le_updatePeak_of_eq p _ rfl, pv_le_updatePeak_peak _⟩

theorem rotate_position_peak (p : Portfolio) (st bt : String) (sp bp ns : ℚ)
    (r : String) :
    p.peak_value ≤ (p.rotate_position st bt sp bp ns r).2.peak_value ∧
    (p.portfolio_value ≤ p.peak_value →
      (p.rotate_position st bt sp bp ns r).2.portfolio_value ≤
        (p.rotate_position st bt sp bp ns r).2.peak_value) := by
  cases hl : lookupA st p.positions with
  | none =>
    simp only [Portfolio.rotate_position, hl]
    exact ⟨le_refl _, id⟩
  | some pos =>
    by_cases hz : pyInt ((pos.shares : ℚ) * sp / bp) = 0
    · simp only [Portfolio.rotate_position, hl, hz, if_pos]
      exact ⟨le_refl _, id⟩
    · have hrm := remove_position_peak p st sp r
      have hrm2 : (p.remove_position st sp r).2.portfolio_value ≤
          (p.remove_position st sp r).2.peak_value := by
        rw [remove_position_found p st sp r pos hl]
        exact pv_le_updatePeak_peak _
      have hadd := add_position_peak (p.remove_position st sp r).2 bt
        (pyInt ((pos.shares : ℚ) * sp / bp)) bp ns r
      simp only [Portfolio.rotate_position, hl]
      rw [if_neg hz]
      split
      · exact ⟨hrm.1, fun _ => hrm2⟩
      · exact ⟨le_trans hrm.1 hadd.1, fun _ => hadd.2 hrm2⟩

theorem applyOp_peak (p : Portfolio) (op : Op) :
    p.peak_value ≤ (applyOp p op).peak_value ∧
    (p.portfolio_value ≤ p.peak_value →
      (applyOp p op).portfolio_value ≤ (applyOp p op).peak_value) := by
  cases op with
  | add t s pr sc r => exact add_position_peak p t s pr sc r
  | remove t pr r => exact remove_position_peak p t pr r
  | rotate st bt sp bp ns r => exact rotate_position_peak p st bt sp bp ns r
  | update d => exact ⟨(update_prices_peak p d).1, fun _ => (update_prices_peak p d).2⟩

theorem head?_scanl (f : Portfolio → Op → Portfolio) (p : Portfolio) (l : List Op) :
    (List.scanl f p l).head? = some p := by
  cases l <;> simp [List.scanl]

theorem peak_monotone_aux : ∀ (ops : List Op) (p : Portfolio),
    p.portfolio_value ≤ p.peak_value →
    List.Chain' (fun a b => a.peak_value ≤ b.peak_value) (List.scanl applyOp p ops) ∧
    ∀ q ∈ List.scanl applyOp p ops, q.portfolio_value ≤ q.peak_value := by
  intro ops
  induction ops with
  | nil =>
    intro p h
    constructor
    · simp [List.scanl]
    · intro q hq
      simp only [List.scanl, List.mem_singleton] at hq
      rw [hq]
      exact h
  | cons op ops ih =>
    intro p h
    have h2 := applyOp_peak p op
    have ih2 := ih (applyOp p op) (h2.2 h)
    rw [List.scanl_cons]
    constructor
    · rw [List.singleton_append, List.chain'_cons']
      refine ⟨?_, ih2.1⟩
      intro y hy
      simp only [head?_scanl, Option.mem_some_iff] at hy
      rw [← hy]
      exact h2.1
    · intro q hq
      rw [List.singleton_append] at hq
      rcases List.mem_cons.1 hq with rfl | hq
      · exact h
      · exact ih2.2 q hq

/-- C3: along any sequence of AddPosition, RemovePosition, UpdatePrices
and RotatePosition calls starting from Portfolio(initial_capital), the
peak value never decreases from one ledger state to the next, and after
every operation the peak value is at least the portfolio value observed
then. -/
theorem peak_monotone (c : ℚ) (ops : List Op) :
    List.Chain' (fun a b => a.peak_value ≤ b.peak_value)
      (List.scanl applyOp (Portfolio.init c) ops) ∧
    ∀ q ∈ List.scanl applyOp (Portfolio.init c) ops,
      q.portfolio_value ≤ q.peak_value :=
  peak_monotone_aux ops (Portfolio.init c)
    (by simp [Portfolio.init, Portfolio.portfolio_value])

/-! ### C6: RSI shape and bounds -/

theorem diffAux_length (x : ℚ) (l : List ℚ) : (diffAux x l).length = l.length := by
  induction l generalizing x with
  | nil => rfl
  | cons y rest ih => simp [diffAux, ih]

theorem diffList_length (l : List ℚ) : (diffList l).length = l.length := by
  cases l with
  | nil => rfl
  | cons x rest => simp [diffList, diffAux_length]

theorem rollingMean_length (n : Nat) (l : List ℚ) :
    (rollingMean n l).length = l.length := by
  simp [rollingMean]

theorem RSI_length (prices : List ℚ) (period : Nat) :
    (RSI prices period).length = prices.length := by
  simp only [RSI]
  split
  · simp
  · rw [List.length_zipWith, rollingMean_length, rollingMean_length,
      List.length_map, List.length_map, diffList_length, min_self]

theorem gainOf_nonneg (d : Option ℚ) : 0 ≤ gainOf d := by
  cases d with
  | none => exact le_refl 0
  | some x =>
    simp only [gainOf]
    split
    · linarith
    · exact le_refl 0

theorem lossOf_nonneg (d : Option ℚ) : 0 ≤ lossOf d := by
  cases d with
  | none => exact le_refl 0
  | some x =>
    simp only [lossOf]
    split
    · linarith
    · exact le_refl 0

theorem rollingMeanAux_nonneg (n : Nat) (l : List ℚ) (i : Nat)
    (hl : ∀ a ∈ l, 0 ≤ a) : ∀ y, rollingMeanAux n l i = some y → 0 ≤ y := by
  intro y hy
  rw [rollingMeanAux] at hy
  split at hy
  · cases hy
  · rw [← Option.some.inj hy]
    apply div_nonneg
    · apply List.sum_nonneg
      intro a ha
      exact hl a (List.drop_subset _ _ (List.take_subset _ _ ha))
    · exact Nat.cast_nonneg n

theorem rollingMean_mem_nonneg (n : Nat) (l : List ℚ) (hl : ∀ a ∈ l, 0 ≤ a) :
    ∀ x ∈ rollingMean n l, ∀ y, x = some y → 0 ≤ y := by
  intro x hx y hy
  rw [rollingMean] at hx
  rcases List.mem_map.1 hx with ⟨i, _, rfl⟩
  exact rollingMeanAux_nonneg n l i hl y hy

theorem rsiCombine_bounds (g l v : ℚ) (hg : 0 ≤ g) (hl : 0 ≤ l)
    (h : rsiCombine (some g) (some l) = some v) : 0 ≤ v ∧ v ≤ 100 := by
  by_cases hl0 : l = 0
  · by_cases hg0 : g = 0
    · simp [rsiCombine, hl0, hg0] at h
    · have hv : v = 100 := by
        simp only [rsiCombine, if_pos hl0, if_neg hg0] at h
        exact (Option.some.inj h).symm
      rw [hv]
      norm_num
  · have hv : 100 - 100 / (1 + g / l) = v := by
      simp only [rsiCombine, if_neg hl0] at h
      exact Option.some.inj h
    have hlpos : 0 < l := lt_of_le_of_ne hl (Ne.symm hl0)
    have hq : 0 ≤ g / l := div_nonneg hg hl
    have h1 : (1 : ℚ) ≤ 1 + g / l := by linarith
    have h2 : 100 / (1 + g / l) ≤ 100 := div_le_self (by norm_num) h1
    have h3 : 0 < 100 / (1 + g / l) := div_pos (by norm_num) (by linarith)
    rw [← hv]
    constructor
    · linarith
    · linarith

theorem zipWith_rsi_bounds : ∀ (ag al : List (Option ℚ)),
    (∀ x ∈ ag, ∀ y, x = some y → 0 ≤ y) →
    (∀ x ∈ al, ∀ y, x = some y → 0 ≤ y) →
    ∀ x ∈ List.zipWith rsiCombine ag al, ∀ v, x = some v → 0 ≤ v ∧ v ≤ 100 := by
  intro ag
  induction ag with
  | nil =>
    intro al _ _ x hx
    simp at hx
  | cons a ag ih =>
    intro al hag hal x hx v hv
    cases al with
    | nil => simp at hx
    | cons b al =>
      rw [List.zipWith_cons_cons] at hx
      rcases List.mem_cons.1 hx with rfl | hx
      · cases a with
        | none => simp [rsiCombine] at hv
        | some g =>
          cases b with
          | none => simp [rsiCombine] at hv
          | some l =>
            exact rsiCombine_bounds g l v
              (hag _ (List.mem_cons_self _ _) g rfl)
              (hal _ (List.mem_cons_self _ _) l rfl) hv
      · exact ih al (fun x hx => hag x (List.mem_cons_of_mem _ hx))
          (fun x hx => hal x (List.mem_cons_of_mem _ hx)) x hx v hv

theorem rollingMean_getElem?_lt (n : Nat) (l : List ℚ) (i : Nat)
    (h : i < l.length) :
    (rollingMean n l)[i]? = some (rollingMeanAux n l i) := by
  rw [rollingMean, List.getElem?_map, List.getElem?_range h]
  rfl

/-- C6 (amended): RSI always returns a list of the same length as the
input; when the input is shorter than period+1 every entry is the
undefined marker; entries at indices with fewer than period prior
observations (index + 1 < period) are always the undefined marker; and
every defined value lies in [0, 100].  (The code defines values one
index earlier than the claim states: the first NaN difference is
silently treated as a zero gain and zero loss, so an index with exactly
period observations can already carry a value.) -/
theorem RSI_spec (prices : List ℚ) (period : Nat) (_hper : 1 ≤ period) :
    (RSI prices period).length = prices.length ∧
    (prices.length < period + 1 → ∀ x ∈ RSI prices period, x = none) ∧
    (∀ i, i + 1 < period → (RSI prices period).getD i none = none) ∧
    (∀ x ∈ RSI prices period, ∀ v, x = some v → 0 ≤ v ∧ v ≤ 100) := by
  refine ⟨RSI_length prices period, ?_, ?_, ?_⟩
  · intro hshort x hx
    simp only [RSI, if_pos hshort] at hx
    rcases List.mem_map.1 hx with ⟨a, _, rfl⟩
    rfl
  · intro i hi
    rw [List.getD_eq_getElem?_getD]
    by_cases hshort : prices.length < period + 1
    · simp only [RSI, if_pos hshort]
      rw [List.getElem?_map]
      cases hgp : prices[i]? <;> simp [hgp]
    · simp only [RSI, if_neg hshort]
      by_cases hip : i < prices.length
      · have hi1 : i < ((diffList prices).map gainOf).length := by
          rw [List.length_map, diffList_length]
          exact hip
        have hi2 : i < ((diffList prices).map lossOf).length := by
          rw [List.length_map, diffList_length]
          exact hip
        rw [List.getElem?_zipWith, rollingMean_getElem?_lt _ _ _ hi1,
          rollingMean_getElem?_lt _ _ _ hi2]
        have hnone : rollingMeanAux period ((diffList prices).map gainOf) i = none := by
          rw [rollingMeanAux, if_pos hi]
        rw [hnone]
        rfl
      · have hout : (List.zipWith rsiCombine
            (rollingMean period ((diffList prices).map gainOf))
            (rollingMean period ((diffList prices).map lossOf))).length ≤ i := by
          rw [List.length_zipWith, rollingMean_length, rollingMean_length,
            List.length_map, List.length_map, diffList_length, min_self]
          exact le_of_not_lt hip
        rw [List.getElem?_eq_none hout]
        rfl
  · intro x hx v hv
    simp only [RSI] at hx
    split at hx
    · rcases List.mem_map.1 hx with ⟨a, _, rfl⟩
      cases hv
    · refine zipWith_rsi_bounds _ _ ?_ ?_ x hx v hv
      · exact rollingMean_mem_nonneg period _
          (fun a ha => by
            rcases List.mem_map.1 ha with ⟨d, _, rfl⟩
            exact gainOf_nonneg d)
      · exact rollingMean_mem_nonneg period _
          (fun a ha => by
            rcases List.mem_map.1 ha with ⟨d, _, rfl⟩
            exact lossOf_nonneg d)

/-- Witness for C6 at prices [1,2,3] with period 2: three output
entries, and the entry at index 0 (fewer than period observations) is
undefined. -/
theorem RSI_spec_witness :
    (RSI [1, 2, 3] 2).length = 3 ∧ (RSI [1, 2, 3] 2).getD 0 none = none := by
  have h := RSI_spec [1, 2, 3] 2 (by norm_num)
  exact ⟨h.1.trans rfl, h.2.2.1 0 (by norm_num)⟩

/-- C6 counterexample: with prices [1, 2, 3] and period 2 the series
length 3 is not below period+1, and index 1 has only 2 = period prior
observations — fewer than the period+1 = 3 the claim requires for a
defined value — yet RSI assigns it the defined value 100 (the initial
NaN difference was counted as a zero gain and zero loss). -/
theorem RSI_defined_early_cex :
    1 + 1 < 2 + 1 ∧ ¬ ([1, 2, 3] : List ℚ).length < 2 + 1 ∧
    (RSI [1, 2, 3] 2).getD 1 none = some 100 := by
  have hR : RSI [1, 2, 3] 2 = [none, some 100, some 100] := by
    norm_num [RSI, diffList, diffAux, rollingMean, rollingMeanAux, gainOf, lossOf,
      rsiCombine, List.range_succ]
  refine ⟨by norm_num, by norm_num, ?_⟩
  rw [hR]
  rfl

end Trader
